import Mathlib

/-!
Verification of the order-signing and amount-calculation core of the
opinion-labs Go SDK.  The Go sources are shallowly embedded: big.Int values
become ℤ, big.Float arithmetic becomes exact rational arithmetic followed by
an explicit correctly-rounded (round-to-nearest, ties-to-even) step at the
precision that the Go big.Float operations use, byte strings become lists of
naturals below 256, and fallible functions return Except.
-/

set_option maxRecDepth 1000000

namespace OpinionSDK

/-! ## Positional digit counting

Go's code measures the magnitude of a big.Int as the length of its decimal
string, and big.Float precision bookkeeping uses big.Int.BitLen.  Both are
modelled by a fuel-driven base-b digit counter (structural recursion, so that
concrete instances reduce inside the kernel). -/

/-- Base-b digit counter with explicit fuel; fuel at least n is always enough. -/
def digitCountAux (b : Nat) : Nat → Nat → Nat
  | 0, _ => 1
  | f + 1, n => if n < b then 1 else digitCountAux b f (n / b) + 1

/-- Number of base-b digits of n (gives 1 for n = 0). -/
def digitCount (b n : Nat) : Nat := digitCountAux b n n

/-- Number of decimal digits of n, i.e. the length of its decimal string. -/
def decimalDigits (n : Nat) : Nat := digitCount 10 n

/-- big.Int.BitLen: the length of the absolute value in bits; 0 for 0. -/
def bitLen (n : Nat) : Nat := if n = 0 then 0 else digitCount 2 n

/-- Length of the Go big.Int decimal string `value.String()`: the decimal
digit count of the absolute value plus one for the sign character when the
value is negative. -/
def goMagnitude (v : Int) : Nat :=
  if v < 0 then decimalDigits v.natAbs + 1 else decimalDigits v.natAbs

/-- big.Int.BitLen for a signed value: bit length of the absolute value. -/
def goBitLen (v : Int) : Nat := bitLen v.natAbs

/-! ## roundToSignificantDigits (source file of package opinionclob)

Go's big.Int.Div is Euclidean division (the remainder is non-negative), which
is Int.ediv. -/

/-- roundToSignificantDigits from the source: keep the first n digits of the
decimal string of value (the string includes a sign character for negative
values) and zero the rest using Euclidean division (Int `/` is Int.ediv,
which matches big.Int.Div). -/
def roundToSignificantDigits (value : Int) (n : Int) : Int :=
  if value = 0 then 0
  else
    let magnitude : Int := goMagnitude value
    if magnitude ≤ n then value
    else
      let divisor : Int := 10 ^ (magnitude - n).toNat
      value / divisor * divisor

/-- Modelled from the spec: the §4.2 contract of roundToSignificantDigits,
where magnitude is the decimal digit-count of value (no sign character) and
the kept digits are obtained with floor division (Int.ediv coincides with
floor division because the divisor is positive).  Used to compare the claimed
behaviour with the source behaviour. -/
def specRoundToSignificantDigits (value : Int) (n : Int) : Int :=
  if value = 0 then 0
  else
    let magnitude : Int := decimalDigits value.natAbs
    if magnitude ≤ n then value
    else
      let divisor : Int := 10 ^ (magnitude - n).toNat
      value / divisor * divisor

/-! ## Exact model of the big.Float computations

A Go big.Float operation computes the exact mathematical result and then
rounds it to the precision of the receiver using round-to-nearest,
ties-to-even.  The exact result here is a rational number, and the rounding
step is implemented explicitly. -/

/-- Absolute value on ℚ, written out so that it reduces. -/
def ratAbs (q : ℚ) : ℚ := if q < 0 then -q else q

/-- Floor of a rational number: Euclidean division by the positive
denominator is floor division. -/
def ratFloor (q : ℚ) : Int := q.num / (q.den : Int)

/-- Truncation toward zero, the conversion big.Float.Int performs. -/
def bigFloatTruncInt (q : ℚ) : Int := if q < 0 then -(ratFloor (-q)) else ratFloor q

/-- 2^k for an integer exponent k, as a rational number (mkRat is used
instead of the cast so that concrete instances reduce). -/
def pow2z (k : Int) : ℚ :=
  if 0 ≤ k then mkRat (2 ^ k.toNat) 1 else mkRat 1 (2 ^ (-k).toNat)

/-- Floor of the base-2 logarithm of the absolute value of a nonzero
rational: the unique t with 2^t ≤ ratAbs q < 2^(t+1). -/
def ratFloorLog2 (q : ℚ) : Int :=
  let L : Int := (bitLen q.num.natAbs : Int) - (bitLen q.den : Int)
  if pow2z L ≤ ratAbs q then L else L - 1

/-- Nearest integer to x, ties resolved to the even integer. -/
def nearestEvenInt (x : ℚ) : Int :=
  let n := ratFloor x
  let r := x - mkRat n 1
  if r < 1 / 2 then n
  else if 1 / 2 < r then n + 1
  else if n % 2 = 0 then n else n + 1

/-- Round a rational to p significant bits, nearest, ties to even: the
rounding a Go big.Float with precision p applies to an exact result. -/
def roundNE (p : Nat) (q : ℚ) : ℚ :=
  if q = 0 then 0
  else
    let k : Int := (p : Int) - (ratFloorLog2 q + 1)
    mkRat (nearestEvenInt (q * pow2z k)) 1 * pow2z (-k)

/-! ## Float64 constants

The Go price literals are untyped constants converted to float64; these are
the exact values of the resulting IEEE-754 binary64 numbers.  Each constant
is validated below against roundNE 53 of the decimal fraction. -/

/-- Exact value of the float64 literal 0.001. -/
def float64_0_001 : ℚ := 1152921504606847 / 1152921504606846976

/-- Exact value of the float64 literal 0.999. -/
def float64_0_999 : ℚ := 8998192055486251 / 9007199254740992

/-- Exact value of the float64 literal 0.0011. -/
def float64_0_0011 : ℚ := 5072854620270127 / 4611686018427387904

/-- Exact value of the float64 literal 0.9989. -/
def float64_0_9989 : ℚ := 8997291335560777 / 9007199254740992

/-! ## CalculateOrderAmounts (source file of package opinionclob) -/

/-- OrderSide from the source (OrderSideBuy = 0, OrderSideSell = 1). -/
inductive OrderSide where
  | buy
  | sell
deriving DecidableEq

/-- The error values the embedded functions can return; each constructor
corresponds to one error return site of the Go sources. -/
inductive ParamError where
  | amountNotPositive
  | invalidDecimals
  | invalidAmountFormat
  | amountOverflow
  | amountZeroOrNegative
  | invalidPrice
  | invalidOrderSalt
  | invalidTokenID
  | invalidMakerAmount
  | invalidTakerAmount
deriving DecidableEq

/-- Discriminator for Except results. -/
def exceptIsOk {ε α : Type} : Except ε α → Bool
  | .ok _ => true
  | .error _ => false

/-- CalculateOrderAmounts from the source.  price is the exact value of the
incoming float64; the price comparison uses the float64 values of the Go
literals.  SetFloat64 represents price exactly (precision 53 ≥ 53 bits
needed); SetInt represents maker4Digit exactly at precision
max(BitLen, 64); Quo and Mul write their correctly rounded result at the
larger operand precision, which is that same max(BitLen, 64); Int truncates
toward zero.  The decimals argument is accepted and ignored, as in the
source. -/
def CalculateOrderAmounts (price : ℚ) (makerAmount : Int) (side : OrderSide)
    (decimals : Int) : Except ParamError (Int × Int) :=
  if price ≤ float64_0_001 ∨ float64_0_999 ≤ price then
    .error .invalidPrice
  else
    let maker4Digit := roundToSignificantDigits makerAmount 4
    let prec := max (goBitLen maker4Digit) 64
    let takerFloat : ℚ :=
      match side with
      | .buy => roundNE prec (mkRat maker4Digit 1 / price)
      | .sell => roundNE prec (mkRat maker4Digit 1 * price)
    let takerAmount := bigFloatTruncInt takerFloat
    let takerAmount := if takerAmount ≤ 0 then 1 else takerAmount
    let recalculatedMakerAmount := if maker4Digit ≤ 0 then 1 else maker4Digit
    .ok (recalculatedMakerAmount, takerAmount)

/-! ## SafeAmountToWei (source file of package opinionclob)

The Go function first renders the float64 amount with
strconv.FormatFloat(amount, 'f', -1, 64): a plain decimal string (never
scientific notation), an optional sign, at most one decimal point, and no
trailing zeros in the fractional part.  The embedding takes that rendered
decimal directly: a sign, the integer part, and the list of fractional
digits.  Because the rendered string always has this shape, the Go branches
for a malformed string (more than one decimal point, or SetString failure)
can never be taken and have no counterpart here. -/

/-- Value of a most-significant-first decimal digit string, as read by
big.Int.SetString in base 10. -/
def digitsVal : List Nat → Nat
  | [] => 0
  | d :: ds => d * 10 ^ ds.length + digitsVal ds

/-- Value of a fractional digit string d₁d₂… as the rational 0.d₁d₂… -/
def fracVal : List Nat → ℚ
  | [] => 0
  | d :: ds => ((d : ℚ) + fracVal ds) / 10

/-- The decimal string strconv.FormatFloat(amount, 'f', -1, 64) produces:
sign, integer part, fractional digits. -/
structure DecimalAmount where
  neg : Bool
  ip : Nat
  fd : List Nat
deriving DecidableEq

/-- Numeric value of the rendered decimal (the float64 amount itself). -/
def DecimalAmount.value (a : DecimalAmount) : ℚ :=
  (if a.neg then -1 else 1) * ((a.ip : ℚ) + fracVal a.fd)

/-- MaxDecimals constant from the source. -/
def MaxDecimals : Int := 18

/-- The pad-or-truncate step of SafeAmountToWei on the fractional digits. -/
def goPadTrunc (fd : List Nat) (decimals : Nat) : List Nat :=
  if decimals < fd.length then fd.take decimals
  else fd ++ List.replicate (decimals - fd.length) 0

/-- SafeAmountToWei from the source: check amount > 0 and
0 ≤ decimals ≤ 18, truncate or right-pad the fractional digits to exactly
decimals digits, read integer-part digits followed by those digits as a
base-10 integer, and check the result is below 2^256 and positive. -/
def SafeAmountToWei (a : DecimalAmount) (decimals : Int) : Except ParamError Int :=
  if a.value ≤ 0 then .error .amountNotPositive
  else if decimals < 0 ∨ MaxDecimals < decimals then .error .invalidDecimals
  else
    let decimalPart := goPadTrunc a.fd decimals.toNat
    let result : Int := (a.ip : Int) * 10 ^ decimals.toNat + (digitsVal decimalPart : Int)
    if 2 ^ 256 ≤ result then .error .amountOverflow
    else if result ≤ 0 then .error .amountZeroOrNegative
    else .ok result

/-! ## EIP-712 hashing (src/chain/eip712.go)

Byte strings are lists of naturals below 256.  Keccak256 is an external
cryptographic primitive (go-ethereum), so every hashing definition is
parameterized by an arbitrary function keccak from byte strings to byte
strings. -/

/-- Big-endian base-256 digits of v, in exactly n bytes (v taken mod 256^n). -/
def beBytes : Nat → Nat → List Nat
  | 0, _ => []
  | n + 1, v => beBytes n (v / 256) ++ [v % 256]

/-- The static ABI argument values used by the two Pack call sites. -/
inductive ABIValue where
  | bytes32 (bytes : List Nat)
  | uint256 (value : Int)
  | address (value : Nat)
  | uint8 (value : Nat)

/-- The 32-byte slot the go-ethereum ABI encoder produces for one static
argument: bytes32 values are used as-is, integers are big-endian and
left-padded with zeros (uint256 values wrap mod 2^256 like math.U256Bytes,
addresses are 20-byte values in the low bytes of the slot, uint8 occupies a
full slot). -/
def abiEncodeWord : ABIValue → List Nat
  | .bytes32 bs => bs
  | .uint256 z => beBytes 32 (Int.emod z (2 ^ 256)).toNat
  | .address a => beBytes 32 (a % 2 ^ 160)
  | .uint8 n => beBytes 32 (n % 2 ^ 8)

/-- abi.Arguments.Pack for a static argument list: the concatenation of the
32-byte slots in argument order. -/
def abiPack (args : List ABIValue) : List Nat :=
  args.foldr (fun v acc => abiEncodeWord v ++ acc) []

/-- Bytes of an ASCII string (Go strings are UTF-8 bytes; every string
constant involved is ASCII, so codepoints and bytes coincide). -/
def strBytes (s : String) : List Nat := s.toList.map Char.toNat

/-- The EIP712Domain type string from the source. -/
def eip712DomainTypeString : String :=
  "EIP712Domain(string name,string version,uint256 chainId,address verifyingContract)"

/-- The Order type string from the source. -/
def orderTypeString : String :=
  "Order(uint256 salt,address maker,address signer,address taker,uint256 tokenId,uint256 makerAmount,uint256 takerAmount,uint256 expiration,uint256 nonce,uint256 feeRateBps,uint8 side,uint8 signatureType)"

/-- EIP712DomainTypeHash: keccak256 of the domain type string. -/
def EIP712DomainTypeHash (keccak : List Nat → List Nat) : List Nat :=
  keccak (strBytes eip712DomainTypeString)

/-- OrderTypeHash: keccak256 of the order type string. -/
def OrderTypeHash (keccak : List Nat → List Nat) : List Nat :=
  keccak (strBytes orderTypeString)

/-- EIP712Domain struct: name and version as byte strings, chainId a big.Int,
verifyingContract a 20-byte address value. -/
structure EIP712Domain where
  Name : List Nat
  Version : List Nat
  ChainID : Int
  VerifyingContract : Nat

/-- EIP712DomainName constant bytes. -/
def EIP712DomainName : List Nat := strBytes ("OPINION CTF Exchange")

/-- EIP712DomainVersion constant bytes. -/
def EIP712DomainVersion : List Nat := strBytes ("1")

/-- NewEIP712Domain from the source. -/
def NewEIP712Domain (chainID : Int) (verifyingContract : Nat) : EIP712Domain :=
  ⟨EIP712DomainName, EIP712DomainVersion, chainID, verifyingContract⟩

/-- EIP712Domain.Hash: keccak256 of the ABI packing of the type hash, the
hashed name, the hashed version, the chain id and the verifying contract. -/
def EIP712Domain.hash (keccak : List Nat → List Nat) (d : EIP712Domain) : List Nat :=
  let nameHash := keccak d.Name
  let versionHash := keccak d.Version
  keccak (abiPack [ABIValue.bytes32 (EIP712DomainTypeHash keccak),
    ABIValue.bytes32 nameHash, ABIValue.bytes32 versionHash,
    ABIValue.uint256 d.ChainID, ABIValue.address d.VerifyingContract])

/-- OrderTypedData struct from the source. -/
structure OrderTypedData where
  Salt : Int
  Maker : Nat
  Signer : Nat
  Taker : Nat
  TokenID : Int
  MakerAmount : Int
  TakerAmount : Int
  Expiration : Int
  Nonce : Int
  FeeRateBps : Int
  Side : Nat
  SignatureType : Nat
deriving DecidableEq

/-- OrderTypedData.Hash: keccak256 of the ABI packing of the order type hash
followed by the twelve order fields in declared order. -/
def OrderTypedData.hash (keccak : List Nat → List Nat) (o : OrderTypedData) : List Nat :=
  keccak (abiPack [ABIValue.bytes32 (OrderTypeHash keccak),
    ABIValue.uint256 o.Salt, ABIValue.address o.Maker, ABIValue.address o.Signer,
    ABIValue.address o.Taker, ABIValue.uint256 o.TokenID,
    ABIValue.uint256 o.MakerAmount, ABIValue.uint256 o.TakerAmount,
    ABIValue.uint256 o.Expiration, ABIValue.uint256 o.Nonce,
    ABIValue.uint256 o.FeeRateBps, ABIValue.uint8 o.Side,
    ABIValue.uint8 o.SignatureType])

/-- CreateOrderSignHash from the source: keccak256 of the two-byte prefix
0x19 0x01 followed by the domain separator and the struct hash. -/
def CreateOrderSignHash (keccak : List Nat → List Nat) (domain : EIP712Domain)
    (order : OrderTypedData) : List Nat :=
  let domainSeparator := domain.hash keccak
  let structHash := order.hash keccak
  let data := ([0x19, 0x01] ++ domainSeparator) ++ structHash
  keccak data

/-! ## Order parsing and signing (src/chain/eip712.go, order_builder.go) -/

/-- Order struct from the source: all fields are strings. -/
structure Order where
  Salt : String
  Maker : String
  Signer : String
  Taker : String
  TokenID : String
  MakerAmount : String
  TakerAmount : String
  Expiration : String
  Nonce : String
  FeeRateBps : String
  Side : String
  SignatureType : String
deriving DecidableEq

/-- Accumulating decimal-digit run parser; fails on any non-digit. -/
def parseDigitsAux : Nat → List Char → Option Nat
  | acc, [] => some acc
  | acc, c :: cs =>
    if '0' ≤ c ∧ c ≤ '9' then parseDigitsAux (acc * 10 + (c.toNat - 48)) cs else none

/-- big.Int.SetString with base 10: an optional sign followed by a nonempty
run of decimal digits (underscores are rejected because the base is
explicit); returns none on anything else. -/
def goParseInt10 (s : String) : Option Int :=
  match s.toList with
  | [] => none
  | '+' :: rest =>
    if rest = [] then none else (parseDigitsAux 0 rest).map fun n => (n : Int)
  | '-' :: rest =>
    if rest = [] then none else (parseDigitsAux 0 rest).map fun n => -(n : Int)
  | cs => (parseDigitsAux 0 cs).map fun n => (n : Int)

/-- Value of one hexadecimal digit character. -/
def hexDigitVal (c : Char) : Option Nat :=
  if '0' ≤ c ∧ c ≤ '9' then some (c.toNat - 48)
  else if 'a' ≤ c ∧ c ≤ 'f' then some (c.toNat - 87)
  else if 'A' ≤ c ∧ c ≤ 'F' then some (c.toNat - 55)
  else none

/-- hex.DecodeString as used through common.Hex2Bytes: decode byte pairs and
stop (keeping the prefix decoded so far) at the first invalid pair or at a
dangling single character. -/
def hexPairsToBytes : List Char → List Nat
  | c1 :: c2 :: rest =>
    match hexDigitVal c1, hexDigitVal c2 with
    | some hi, some lo => (hi * 16 + lo) :: hexPairsToBytes rest
    | _, _ => []
  | _ => []

/-- Strip a leading 0x or 0X marker, as common.FromHex does. -/
def stripHexMark : List Char → List Char
  | '0' :: 'x' :: rest => rest
  | '0' :: 'X' :: rest => rest
  | cs => cs

/-- Big-endian byte-string value. -/
def bytesToNatBE : List Nat → Nat
  | [] => 0
  | b :: bs => b * 256 ^ bs.length + bytesToNatBE bs

/-- common.HexToAddress: strip the 0x marker, left-pad to an even number of
hex digits, decode, and keep the last 20 bytes (left-padding with zero bytes
is implicit in the numeric value).  Total: never fails. -/
def hexToAddress (s : String) : Nat :=
  let cs := stripHexMark s.toList
  let cs := if cs.length % 2 = 1 then '0' :: cs else cs
  let bytes := hexPairsToBytes cs
  let last20 := if 20 < bytes.length then bytes.drop (bytes.length - 20) else bytes
  bytesToNatBE last20

/-- OrderToTypedData from the source: Salt, TokenID, MakerAmount and
TakerAmount must parse; Expiration, Nonce and FeeRateBps fall back to 0 when
they do not parse; Side is 1 exactly for the string "1" and otherwise 0;
SignatureType is 1 for "1", 2 for "2" and otherwise 0. -/
def OrderToTypedData (order : Order) : Except ParamError OrderTypedData :=
  match goParseInt10 order.Salt with
  | none => .error .invalidOrderSalt
  | some salt =>
  match goParseInt10 order.TokenID with
  | none => .error .invalidTokenID
  | some tokenID =>
  match goParseInt10 order.MakerAmount with
  | none => .error .invalidMakerAmount
  | some makerAmount =>
  match goParseInt10 order.TakerAmount with
  | none => .error .invalidTakerAmount
  | some takerAmount =>
  let expiration := (goParseInt10 order.Expiration).getD 0
  let nonce := (goParseInt10 order.Nonce).getD 0
  let feeRateBps := (goParseInt10 order.FeeRateBps).getD 0
  let side : Nat := if order.Side = ("1") then 1 else 0
  let signatureType : Nat :=
    if order.SignatureType = ("1") then 1
    else if order.SignatureType = ("2") then 2 else 0
  .ok { Salt := salt, Maker := hexToAddress order.Maker,
        Signer := hexToAddress order.Signer, Taker := hexToAddress order.Taker,
        TokenID := tokenID, MakerAmount := makerAmount,
        TakerAmount := takerAmount, Expiration := expiration, Nonce := nonce,
        FeeRateBps := feeRateBps, Side := side, SignatureType := signatureType }

/-- Lowercase hex digit character for a value below 16. -/
def hexDigitChar (n : Nat) : Char :=
  if n < 10 then Char.ofNat (48 + n) else Char.ofNat (87 + n)

/-- Character list of the %x rendering of a byte string: two lowercase hex
digits per byte. -/
def hexChars : List Nat → List Char
  | [] => []
  | b :: bs => hexDigitChar (b / 16) :: hexDigitChar (b % 16) :: hexChars bs

/-- fmt.Sprintf 0x%x of a byte string. -/
def hexOfBytes (bs : List Nat) : String := String.mk (hexChars bs)

/-- OrderBuilder.SignOrder from the source: convert the order to typed data,
build the domain from the builder's chain id and exchange address, compute
the EIP-712 sign hash, sign it with the external ECDSA signer (modelled as a
function from the 32-byte hash to the 65-byte r‖s‖v signature with v the raw
recovery id), add 27 to the recovery byte (byte arithmetic wraps mod 256),
and render the signature as a 0x-prefixed lowercase hex string. -/
def SignOrder (keccak ecdsaSign : List Nat → List Nat) (chainID : Int)
    (exchangeAddr : Nat) (order : Order) : Except ParamError String :=
  match OrderToTypedData order with
  | .error e => .error e
  | .ok typedData =>
    let domain := NewEIP712Domain chainID exchangeAddr
    let signHash := CreateOrderSignHash keccak domain typedData
    let signature := ecdsaSign signHash
    let signature := signature.set 64 ((signature.getD 64 0 + 27) % 256)
    .ok (("0x") ++ hexOfBytes signature)

/-! ## Concrete inputs used by witnesses -/

/-- A concrete order whose four amount fields parse. -/
def order0 : Order :=
  { Salt := ("1"), Maker := ("0xab"), Signer := ("0xab"),
    Taker := ("0x0000000000000000000000000000000000000000"),
    TokenID := ("2"), MakerAmount := ("3"), TakerAmount := ("4"),
    Expiration := (""), Nonce := ("x"), FeeRateBps := ("0"),
    Side := ("1"), SignatureType := ("2") }

/-- The typed data order0 converts to. -/
def typed0 : OrderTypedData :=
  { Salt := 1, Maker := 171, Signer := 171, Taker := 0, TokenID := 2,
    MakerAmount := 3, TakerAmount := 4, Expiration := 0, Nonce := 0,
    FeeRateBps := 0, Side := 1, SignatureType := 2 }

/-- A concrete stand-in for keccak256 (any function works in the theorems). -/
def keccak0 : List Nat → List Nat := fun l => List.replicate 32 (l.length % 256)

/-- A concrete stand-in for the ECDSA signer: 64 payload bytes and recovery
id 1. -/
def ecdsaSign0 : List Nat → List Nat := fun _ => List.replicate 64 171 ++ [1]

deriving instance DecidableEq for Except

/-! # Theorems -/

attribute [local semireducible] Rat.add Rat.mul Rat.sub Rat.inv Rat.ofScientific

/-! ## Digit counting -/

theorem digitCountAux_congr (b : Nat) (hb : 2 ≤ b) :
    ∀ f g n, n ≤ f → n ≤ g → digitCountAux b f n = digitCountAux b g n := by
  intro f
  induction f with
  | zero =>
    intro g n hf _
    have hn : n = 0 := Nat.le_zero.mp hf
    subst hn
    cases g with
    | zero => rfl
    | succ g => simp only [digitCountAux, if_pos (show 0 < b by omega)]
  | succ f ih =>
    intro g n _ hg
    cases g with
    | zero =>
      have hn : n = 0 := Nat.le_zero.mp hg
      subst hn
      simp only [digitCountAux, if_pos (show 0 < b by omega)]
    | succ g =>
      by_cases hlt : n < b
      · simp only [digitCountAux, if_pos hlt]
      · have hdiv : n / b < n := Nat.div_lt_self (by omega) (by omega)
        simp only [digitCountAux, if_neg hlt]
        exact congrArg (· + 1) (ih g (n / b) (by omega) (by omega))

theorem digitCount_unfold (b : Nat) (hb : 2 ≤ b) (n : Nat) :
    digitCount b n = if n < b then 1 else digitCount b (n / b) + 1 := by
  unfold digitCount
  by_cases hlt : n < b
  · rw [if_pos hlt]
    cases n with
    | zero => rfl
    | succ m => simp only [digitCountAux, if_pos hlt]
  · rw [if_neg hlt]
    cases n with
    | zero => omega
    | succ m =>
      have hX : (m + 1) / b < m + 1 := Nat.div_lt_self (by omega) (by omega)
      simp only [digitCountAux, if_neg hlt]
      exact congrArg (· + 1)
        (digitCountAux_congr b hb m ((m + 1) / b) ((m + 1) / b) (by omega) le_rfl)

theorem digitCount_pos (b : Nat) (hb : 2 ≤ b) (n : Nat) : 1 ≤ digitCount b n := by
  rw [digitCount_unfold b hb]
  split <;> omega

theorem digitCount_bracket (b : Nat) (hb : 2 ≤ b) :
    ∀ n, 1 ≤ n → b ^ (digitCount b n - 1) ≤ n ∧ n < b ^ digitCount b n := by
  intro n
  induction n using Nat.strong_induction_on with
  | _ n ih =>
    intro hn
    rw [digitCount_unfold b hb]
    by_cases hlt : n < b
    · rw [if_pos hlt]
      exact ⟨by simpa using hn, by simpa using hlt⟩
    · rw [if_neg hlt]
      have hdiv_lt : n / b < n := Nat.div_lt_self (by omega) (by omega)
      have hdiv_ge : 1 ≤ n / b := (Nat.one_le_div_iff (by omega)).mpr (by omega)
      obtain ⟨h1, h2⟩ := ih (n / b) hdiv_lt hdiv_ge
      have hd1 : 1 ≤ digitCount b (n / b) := digitCount_pos b hb (n / b)
      set d := digitCount b (n / b) with hd
      constructor
      · have hsplit : b ^ d = b ^ (d - 1) * b := by
          conv_lhs => rw [show d = (d - 1) + 1 by omega]
          rw [pow_succ]
        calc b ^ (d + 1 - 1) = b ^ d := by simp
          _ = b ^ (d - 1) * b := hsplit
          _ ≤ (n / b) * b := Nat.mul_le_mul_right b h1
          _ ≤ n := Nat.div_mul_le_self n b
      · calc n < (n / b + 1) * b := by
              have h3 := Nat.div_add_mod n b
              have h4 : n % b < b := Nat.mod_lt n (by omega)
              have h5 : (n / b + 1) * b = b * (n / b) + b := by ring
              omega
          _ ≤ b ^ d * b := Nat.mul_le_mul_right b (by omega)
          _ = b ^ (d + 1) := (pow_succ b d).symm

theorem digitCount_eq_of (b : Nat) (hb : 2 ≤ b) (n d : Nat) (hd : 1 ≤ d)
    (h1 : b ^ (d - 1) ≤ n) (h2 : n < b ^ d) : digitCount b n = d := by
  have hn : 1 ≤ n := le_trans (Nat.one_le_pow _ _ (by omega)) h1
  obtain ⟨g1, g2⟩ := digitCount_bracket b hb n hn
  have he1 : 1 ≤ digitCount b n := digitCount_pos b hb n
  set e := digitCount b n with he
  by_contra hne
  rcases Nat.lt_or_ge e d with h | h
  · have hp : b ^ e ≤ b ^ (d - 1) := Nat.pow_le_pow_right (by omega) (by omega)
    omega
  · have h' : d < e := by omega
    have hp : b ^ d ≤ b ^ (e - 1) := Nat.pow_le_pow_right (by omega) (by omega)
    omega

theorem decimalDigits_pos (n : Nat) : 1 ≤ decimalDigits n :=
  digitCount_pos 10 (by norm_num) n

theorem decimalDigits_bracket (n : Nat) (hn : 1 ≤ n) :
    10 ^ (decimalDigits n - 1) ≤ n ∧ n < 10 ^ decimalDigits n :=
  digitCount_bracket 10 (by norm_num) n hn

theorem decimalDigits_eq_of (n d : Nat) (hd : 1 ≤ d)
    (h1 : 10 ^ (d - 1) ≤ n) (h2 : n < 10 ^ d) : decimalDigits n = d :=
  digitCount_eq_of 10 (by norm_num) n d hd h1 h2

theorem bitLen_bracket (n : Nat) (hn : 1 ≤ n) :
    2 ^ (bitLen n - 1) ≤ n ∧ n < 2 ^ bitLen n := by
  unfold bitLen
  rw [if_neg (by omega)]
  exact digitCount_bracket 2 le_rfl n hn

theorem lt_two_pow_bitLen (n : Nat) : n < 2 ^ bitLen n := by
  rcases Nat.eq_zero_or_pos n with h | h
  · subst h
    simp [bitLen]
  · exact (bitLen_bracket n h).2

/-! ## roundToSignificantDigits -/

theorem goMagnitude_of_nonneg (v : Int) (hv : 0 ≤ v) :
    goMagnitude v = decimalDigits v.natAbs := by
  unfold goMagnitude
  rw [if_neg (not_lt.mpr hv)]

theorem roundToSignificantDigits_nonneg_eq_spec (v n : Int) (hv : 0 ≤ v) :
    roundToSignificantDigits v n = specRoundToSignificantDigits v n := by
  unfold roundToSignificantDigits specRoundToSignificantDigits
  rw [goMagnitude_of_nonneg v hv]

theorem roundToSignificantDigits_idem (v n : Int) (hv : 0 ≤ v) :
    roundToSignificantDigits (roundToSignificantDigits v n) n =
      roundToSignificantDigits v n := by
  rcases eq_or_lt_of_le hv with h0 | hpos
  · rw [← h0]
    simp [roundToSignificantDigits]
  by_cases hm : (goMagnitude v : Int) ≤ n
  · have hself : roundToSignificantDigits v n = v := by
      unfold roundToSignificantDigits
      rw [if_neg (by omega), if_pos hm]
    rw [hself]
    unfold roundToSignificantDigits
    rw [if_neg (by omega), if_pos hm]
  · have hne : v ≠ 0 := by omega
    have hmag : goMagnitude v = decimalDigits v.natAbs :=
      goMagnitude_of_nonneg v hv
    set m := decimalDigits v.natAbs with hmdef
    have hmn : ¬ ((m : Int) ≤ n) := by
      rw [hmag] at hm
      exact hm
    set k : Nat := ((m : Int) - n).toNat with hkdef
    set D : Int := 10 ^ k with hDdef
    have hD : (0 : Int) < D := pow_pos (by norm_num) k
    have hval : roundToSignificantDigits v n = v / D * D := by
      unfold roundToSignificantDigits
      rw [if_neg hne, if_neg (show ¬ ((goMagnitude v : Int) ≤ n) by rw [hmag]; exact hmn),
        hmag]
    set q := v / D with hqdef
    have hq0 : 0 ≤ q := Int.ediv_nonneg hv (le_of_lt hD)
    rcases eq_or_lt_of_le hq0 with hq | hq
    · rw [hval, ← hq]
      simp [roundToSignificantDigits]
    · have hvn : 1 ≤ v.natAbs := by omega
      obtain ⟨hb1n, hb2n⟩ := decimalDigits_bracket v.natAbs hvn
      have hcast : ((v.natAbs : Int)) = v := Int.natAbs_of_nonneg hv
      have hb1 : (10 : Int) ^ (m - 1) ≤ v := by
        rw [← hcast]
        exact_mod_cast hb1n
      have hb2 : v < (10 : Int) ^ m := by
        rw [← hcast]
        exact_mod_cast hb2n
      have hqD_le : q * D ≤ v := Int.ediv_mul_le v (ne_of_gt hD)
      have hDlev : D ≤ v :=
        calc D = 1 * D := (one_mul D).symm
          _ ≤ q * D := mul_le_mul_of_nonneg_right (by omega) (le_of_lt hD)
          _ ≤ v := hqD_le
      have hm1 : 1 ≤ m := decimalDigits_pos v.natAbs
      have hkm : k < m := by
        by_contra hcon
        have hp : (10 : Int) ^ m ≤ 10 ^ k := pow_le_pow_right₀ (by norm_num) (by omega)
        rw [hDdef] at hDlev
        linarith
      have hpow_split : (10 : Int) ^ (m - 1) = 10 ^ (m - 1 - k) * D := by
        rw [hDdef, ← pow_add]
        congr 1
        omega
      have hq_low : (10 : Int) ^ (m - 1 - k) ≤ q := by
        apply (Int.le_ediv_iff_mul_le hD).mpr
        rw [← hpow_split]
        exact hb1
      have hr1pos : 0 < q * D := mul_pos hq hD
      have hr1_up : q * D < (10 : Int) ^ m := lt_of_le_of_lt hqD_le hb2
      have hr1_low : (10 : Int) ^ (m - 1) ≤ q * D := by
        rw [hpow_split]
        exact mul_le_mul_of_nonneg_right hq_low (le_of_lt hD)
      have hmagr1 : decimalDigits (q * D).natAbs = m := by
        apply decimalDigits_eq_of _ m hm1
        · have : ((q * D).natAbs : Int) = q * D := Int.natAbs_of_nonneg (le_of_lt hr1pos)
          exact_mod_cast this ▸ hr1_low
        · have : ((q * D).natAbs : Int) = q * D := Int.natAbs_of_nonneg (le_of_lt hr1pos)
          exact_mod_cast this ▸ hr1_up
      have hmag2 : goMagnitude (q * D) = m := by
        rw [goMagnitude_of_nonneg (q * D) (le_of_lt hr1pos)]
        exact hmagr1
      rw [hval]
      unfold roundToSignificantDigits
      rw [if_neg (ne_of_gt hr1pos),
        if_neg (show ¬ ((goMagnitude (q * D) : Int) ≤ n) by rw [hmag2]; exact hmn), hmag2]
      show q * D / (10 ^ ((m : Int) - n).toNat) * 10 ^ ((m : Int) - n).toNat = q * D
      rw [← hkdef, ← hDdef, Int.mul_ediv_cancel q (ne_of_gt hD)]

theorem roundToSignificantDigits_pos (v n : Int) (hv : 0 < v) (hn : 1 ≤ n) :
    0 < roundToSignificantDigits v n := by
  unfold roundToSignificantDigits
  rw [if_neg (by omega)]
  by_cases hm : ((goMagnitude v : Int) ≤ n)
  · rw [if_pos hm]
    exact hv
  · rw [if_neg hm]
    have hmag : goMagnitude v = decimalDigits v.natAbs :=
      goMagnitude_of_nonneg v (le_of_lt hv)
    rw [hmag]
    set m := decimalDigits v.natAbs with hmdef
    have hm1 : 1 ≤ m := decimalDigits_pos v.natAbs
    show 0 < v / (10 ^ ((m : Int) - n).toNat) * 10 ^ ((m : Int) - n).toNat
    set k : Nat := ((m : Int) - n).toNat with hkdef
    set D : Int := 10 ^ k with hDdef
    have hD : (0 : Int) < D := pow_pos (by norm_num) k
    have hvn : 1 ≤ v.natAbs := by omega
    obtain ⟨hb1n, _⟩ := decimalDigits_bracket v.natAbs hvn
    have hcast : ((v.natAbs : Int)) = v := Int.natAbs_of_nonneg (le_of_lt hv)
    have hb1 : (10 : Int) ^ (m - 1) ≤ v := by
      rw [← hcast]
      exact_mod_cast hb1n
    have hkm : k ≤ m - 1 := by omega
    have hDle : D ≤ v :=
      calc D = (10 : Int) ^ k := rfl
        _ ≤ 10 ^ (m - 1) := pow_le_pow_right₀ (by norm_num) hkm
        _ ≤ v := hb1
    have hq : 1 ≤ v / D := by
      rw [Int.le_ediv_iff_mul_le hD]
      simpa using hDle
    exact mul_pos (by omega) hD

theorem roundToSignificantDigits_le_self (v n : Int) (hv : 0 ≤ v) :
    roundToSignificantDigits v n ≤ v := by
  unfold roundToSignificantDigits
  split
  · exact hv
  · show (if (goMagnitude v : Int) ≤ n then v
      else v / (10 ^ ((goMagnitude v : Int) - n).toNat) *
        10 ^ ((goMagnitude v : Int) - n).toNat) ≤ v
    split
    · exact le_rfl
    · exact Int.ediv_mul_le v (ne_of_gt (pow_pos (by norm_num) _))

/-- C7: the source counts the sign character of a negative value in the
magnitude (and uses floor division), so for the negative input -12345 it
zeroes two digits where the claimed digit-count rule zeroes one: the source
yields -12400 while the claimed rule yields -12350. -/
theorem c7_counterexample :
    roundToSignificantDigits (-12345) 4 = -12400 ∧
    specRoundToSignificantDigits (-12345) 4 = -12350 ∧
    roundToSignificantDigits (-12345) 4 ≠ specRoundToSignificantDigits (-12345) 4 := by
  decide

/-- C7 (amended to nonnegative inputs): roundToSignificantDigits 0 n = 0,
and for every nonnegative value and every n the source function agrees with
the claimed rule: value is returned unchanged when its decimal digit-count is
at most n, and otherwise equals floor(value / 10^(magnitude-n)) *
10^(magnitude-n). -/
theorem c7_round_to_significant_digits (v n : Int) (hv : 0 ≤ v) :
    (∀ j : Int, roundToSignificantDigits 0 j = 0) ∧
    roundToSignificantDigits v n = specRoundToSignificantDigits v n :=
  ⟨fun _ => by simp [roundToSignificantDigits],
    roundToSignificantDigits_nonneg_eq_spec v n hv⟩

/-- Witness for C7 at value 98765, n = 3. -/
theorem c7_witness :
    (roundToSignificantDigits 98765 3 = specRoundToSignificantDigits 98765 3) ∧
    roundToSignificantDigits 98765 3 = 98700 :=
  ⟨(c7_round_to_significant_digits 98765 3 (by decide)).2, by decide⟩

/-- C8: idempotence fails for negative inputs: rounding -9 to 1 significant
digit gives -10, whose Go magnitude (length of the string "-10") is 3, so a
second application zeroes two digits and gives -100. -/
theorem c8_counterexample :
    roundToSignificantDigits (roundToSignificantDigits (-9) 1) 1 ≠
      roundToSignificantDigits (-9) 1 ∧
    roundToSignificantDigits (-9) 1 = -10 ∧
    roundToSignificantDigits (-10) 1 = -100 := by
  decide

/-- C8 (amended to nonnegative inputs): roundToSignificantDigits is
idempotent on every nonnegative value, for every n. -/
theorem c8_round_idempotent (v n : Int) (hv : 0 ≤ v) :
    roundToSignificantDigits (roundToSignificantDigits v n) n =
      roundToSignificantDigits v n :=
  roundToSignificantDigits_idem v n hv

/-- Witness for C8 at value 98765, n = 2. -/
theorem c8_witness :
    roundToSignificantDigits (roundToSignificantDigits 98765 2) 2 =
      roundToSignificantDigits 98765 2 ∧
    roundToSignificantDigits 98765 2 = 98000 :=
  ⟨c8_round_idempotent 98765 2 (by decide), by decide⟩

/-- C10: CalculateOrderAmounts never reads its decimals argument, so two
calls differing only in decimals return identical results. -/
theorem c10_decimals_ignored (price : ℚ) (maker : Int) (side : OrderSide)
    (d1 d2 : Int) :
    CalculateOrderAmounts price maker side d1 =
      CalculateOrderAmounts price maker side d2 := rfl

/-! ## Rational helpers and the rounding model -/

theorem ratFloor_eq_floor (q : ℚ) : ratFloor q = ⌊q⌋ := Rat.floor_def.symm

theorem pow2z_eq (k : Int) : pow2z k = (2 : ℚ) ^ k := by
  unfold pow2z
  by_cases hk : 0 ≤ k
  · rw [if_pos hk, Rat.mkRat_one]
    have hcast : ((2 ^ k.toNat : Int) : ℚ) = (2 : ℚ) ^ k.toNat := by
      push_cast
      ring
    rw [hcast, ← zpow_natCast (2 : ℚ) k.toNat, Int.toNat_of_nonneg hk]
  · have hk' : 0 ≤ -k := by omega
    rw [if_neg hk, Rat.mkRat_eq_div]
    have hcast : ((2 ^ (-k).toNat : ℕ) : ℚ) = (2 : ℚ) ^ (-k).toNat := by
      push_cast
      ring
    rw [show ((1 : Int) : ℚ) = 1 by norm_num, hcast, one_div,
      ← zpow_natCast (2 : ℚ) (-k).toNat, Int.toNat_of_nonneg hk', ← zpow_neg, neg_neg]

theorem pow2z_pos (k : Int) : 0 < pow2z k := by
  rw [pow2z_eq]
  exact zpow_pos (by norm_num) k

theorem pow2z_mul_neg (k : Int) : pow2z k * pow2z (-k) = 1 := by
  rw [pow2z_eq, pow2z_eq, ← zpow_add₀ (show (2 : ℚ) ≠ 0 by norm_num)]
  simp

theorem pow2z_le_pow2z {a b : Int} (h : a ≤ b) : pow2z a ≤ pow2z b := by
  rw [pow2z_eq, pow2z_eq]
  exact zpow_le_zpow_right₀ (by norm_num) h

theorem pow2z_lt_pow2z_iff {a b : Int} : pow2z a < pow2z b ↔ a < b := by
  rw [pow2z_eq, pow2z_eq]
  exact zpow_lt_zpow_iff_right₀ (by norm_num)

theorem pow2z_le_one {k : Int} (h : k ≤ 0) : pow2z k ≤ 1 := by
  rw [pow2z_eq]
  exact zpow_le_one_of_nonpos₀ (by norm_num) h

theorem ratAbs_of_pos (q : ℚ) (h : 0 < q) : ratAbs q = q := by
  unfold ratAbs
  rw [if_neg (not_lt.mpr (le_of_lt h))]

theorem ratAbs_eq (q : ℚ) : ratAbs q = ((q.num.natAbs : ℚ)) / ((q.den : ℚ)) := by
  have hnum := Rat.num_div_den q
  have habs : ((q.num.natAbs : ℚ)) = |((q.num : ℚ))| := by
    rw [Int.cast_natAbs, Int.cast_abs]
  unfold ratAbs
  by_cases h : q < 0
  · rw [if_pos h, habs, abs_of_neg (show ((q.num : ℚ)) < 0 by
      exact_mod_cast Rat.num_neg.mpr h), neg_div, hnum]
  · rw [if_neg h, habs, abs_of_nonneg (show (0 : ℚ) ≤ ((q.num : ℚ)) by
      exact_mod_cast Rat.num_nonneg.mpr (not_lt.mp h)), hnum]

theorem bitLen_pos (n : Nat) (hn : 1 ≤ n) : 1 ≤ bitLen n := by
  unfold bitLen
  rw [if_neg (by omega)]
  exact digitCount_pos 2 le_rfl n

theorem ratFloorLog2_spec (q : ℚ) (hq : q ≠ 0) :
    pow2z (ratFloorLog2 q) ≤ ratAbs q ∧ ratAbs q < pow2z (ratFloorLog2 q + 1) := by
  have hnum : q.num ≠ 0 := Rat.num_ne_zero.mpr hq
  have hNn : 1 ≤ q.num.natAbs := by omega
  have hDd : 1 ≤ q.den := Rat.den_pos q
  obtain ⟨hn1, hn2⟩ := bitLen_bracket q.num.natAbs hNn
  obtain ⟨hd1, hd2⟩ := bitLen_bracket q.den hDd
  have hBn1 : 1 ≤ bitLen q.num.natAbs := bitLen_pos _ hNn
  have hBd1 : 1 ≤ bitLen q.den := bitLen_pos _ hDd
  set Bn := bitLen q.num.natAbs with hBn
  set Bd := bitLen q.den with hBd
  have habs : ratAbs q = ((q.num.natAbs : ℚ)) / ((q.den : ℚ)) := ratAbs_eq q
  have hden0 : (0 : ℚ) < ((q.den : ℚ)) := by exact_mod_cast Rat.den_pos q
  have hzn : ((2 : ℚ)) ^ ((Bn : Int) - 1) = ((2 : ℚ)) ^ (Bn - 1 : ℕ) := by
    rw [← zpow_natCast]
    congr 1
    push_cast [Nat.cast_sub hBn1]
    ring
  have hzd : ((2 : ℚ)) ^ ((Bd : Int) - 1) = ((2 : ℚ)) ^ (Bd - 1 : ℕ) := by
    rw [← zpow_natCast]
    congr 1
    push_cast [Nat.cast_sub hBd1]
    ring
  have hlow : (2 : ℚ) ^ ((Bn : Int) - Bd - 1) < ratAbs q := by
    rw [habs, lt_div_iff₀ hden0]
    have hstep : (2 : ℚ) ^ ((Bn : Int) - Bd - 1) * ((q.den : ℚ)) <
        (2 : ℚ) ^ ((Bn : Int) - Bd - 1) * (2 : ℚ) ^ ((Bd : Int)) := by
      apply mul_lt_mul_of_pos_left _ (zpow_pos (by norm_num) _)
      rw [zpow_natCast]
      exact_mod_cast hd2
    refine lt_of_lt_of_le hstep ?_
    rw [← zpow_add₀ (show (2 : ℚ) ≠ 0 by norm_num),
      show (Bn : Int) - Bd - 1 + Bd = (Bn : Int) - 1 by ring, hzn]
    exact_mod_cast hn1
  have hup : ratAbs q < (2 : ℚ) ^ ((Bn : Int) - Bd + 1) := by
    rw [habs, div_lt_iff₀ hden0]
    have hstep : (2 : ℚ) ^ ((Bn : Int) - Bd + 1) * (2 : ℚ) ^ ((Bd : Int) - 1) ≤
        (2 : ℚ) ^ ((Bn : Int) - Bd + 1) * ((q.den : ℚ)) := by
      apply mul_le_mul_of_nonneg_left _ (le_of_lt (zpow_pos (by norm_num) _))
      rw [hzd]
      exact_mod_cast hd1
    refine lt_of_lt_of_le ?_ hstep
    rw [← zpow_add₀ (show (2 : ℚ) ≠ 0 by norm_num),
      show (Bn : Int) - Bd + 1 + ((Bd : Int) - 1) = (Bn : Int) by ring, zpow_natCast]
    exact_mod_cast hn2
  have hL : ratFloorLog2 q =
      if pow2z ((Bn : Int) - Bd) ≤ ratAbs q then (Bn : Int) - Bd
      else (Bn : Int) - Bd - 1 := rfl
  rw [hL]
  by_cases hc : pow2z ((Bn : Int) - Bd) ≤ ratAbs q
  · rw [if_pos hc]
    refine ⟨hc, ?_⟩
    rw [pow2z_eq]
    exact hup
  · rw [if_neg hc]
    constructor
    · rw [pow2z_eq]
      exact le_of_lt hlow
    · rw [show (Bn : Int) - Bd - 1 + 1 = (Bn : Int) - Bd by ring]
      exact lt_of_not_le hc

theorem nearestEvenInt_ge_floor (x : ℚ) : ⌊x⌋ ≤ nearestEvenInt x := by
  simp only [nearestEvenInt, ratFloor_eq_floor, Rat.mkRat_one]
  split
  · exact le_rfl
  split
  · omega
  split
  · exact le_rfl
  · omega

theorem nearestEvenInt_le_add_half (x : ℚ) : ((nearestEvenInt x : Int) : ℚ) ≤ x + 1 / 2 := by
  have hfl := Int.floor_le x
  have hfu := Int.lt_floor_add_one x
  simp only [nearestEvenInt, ratFloor_eq_floor, Rat.mkRat_one]
  split
  next h1 =>
    linarith
  next h1 =>
    split
    next h2 =>
      push_cast
      linarith
    next h2 =>
      split
      next =>
        linarith
      next =>
        push_cast
        linarith [not_lt.mp h2]

theorem roundNE_bounds (p : Nat) (q : ℚ) (h0 : 0 < q) (hp : q < pow2z (p : Int)) :
    ((⌊q⌋ : Int) : ℚ) ≤ roundNE p q ∧ roundNE p q ≤ q + 1 / 2 := by
  have hqne : q ≠ 0 := ne_of_gt h0
  obtain ⟨hs1, hs2⟩ := ratFloorLog2_spec q hqne
  rw [ratAbs_of_pos q h0] at hs1 hs2
  set e : Int := ratFloorLog2 q + 1 with he
  have hs1' : pow2z (e - 1) ≤ q := by
    rw [show e - 1 = ratFloorLog2 q by omega]
    exact hs1
  have hs2' : q < pow2z e := hs2
  have hep : e ≤ (p : Int) := by
    by_contra hcon
    have h1 : (p : Int) ≤ e - 1 := by omega
    have h2 := pow2z_le_pow2z h1
    linarith
  set k : Int := (p : Int) - e with hk
  have hk0 : 0 ≤ k := by omega
  have hval : roundNE p q = mkRat (nearestEvenInt (q * pow2z k)) 1 * pow2z (-k) := by
    unfold roundNE
    rw [if_neg hqne]
  set x := q * pow2z k with hx
  set m := nearestEvenInt x with hm
  rw [hval, Rat.mkRat_one]
  have hK : (0 : ℚ) < pow2z k := pow2z_pos k
  have hKn : (0 : ℚ) < pow2z (-k) := pow2z_pos (-k)
  have hKK : pow2z k * pow2z (-k) = 1 := pow2z_mul_neg k
  constructor
  · have hKint : pow2z k = ((2 ^ k.toNat : Int) : ℚ) := by
      unfold pow2z
      rw [if_pos hk0, Rat.mkRat_one]
    have hstep1 : ((⌊q⌋ * 2 ^ k.toNat : Int) : ℚ) ≤ x := by
      rw [hx, hKint]
      push_cast
      exact mul_le_mul_of_nonneg_right (Int.floor_le q) (by positivity)
    have hstep2 : ⌊q⌋ * 2 ^ k.toNat ≤ ⌊x⌋ := Int.le_floor.mpr hstep1
    have hstep3 : ⌊q⌋ * 2 ^ k.toNat ≤ m := le_trans hstep2 (nearestEvenInt_ge_floor x)
    have hstep4 : ((⌊q⌋ : Int) : ℚ) * pow2z k ≤ ((m : Int) : ℚ) := by
      rw [hKint]
      exact_mod_cast hstep3
    calc ((⌊q⌋ : Int) : ℚ) = ((⌊q⌋ : Int) : ℚ) * (pow2z k * pow2z (-k)) := by
          rw [hKK]
          ring
      _ = ((⌊q⌋ : Int) : ℚ) * pow2z k * pow2z (-k) := by ring
      _ ≤ ((m : Int) : ℚ) * pow2z (-k) :=
          mul_le_mul_of_nonneg_right hstep4 (le_of_lt hKn)
  · have hm_le : ((m : Int) : ℚ) ≤ x + 1 / 2 := nearestEvenInt_le_add_half x
    have h1 : ((m : Int) : ℚ) * pow2z (-k) ≤ (x + 1 / 2) * pow2z (-k) :=
      mul_le_mul_of_nonneg_right hm_le (le_of_lt hKn)
    have h2 : (x + 1 / 2) * pow2z (-k) = q + 1 / 2 * pow2z (-k) := by
      calc (x + 1 / 2) * pow2z (-k)
          = q * (pow2z k * pow2z (-k)) + 1 / 2 * pow2z (-k) := by
            rw [hx]
            ring
        _ = q + 1 / 2 * pow2z (-k) := by
            rw [hKK]
            ring
    have h3 : (1 / 2 : ℚ) * pow2z (-k) ≤ 1 / 2 := by
      have h4 := pow2z_le_one (show -k ≤ 0 by omega)
      linarith
    rw [h2] at h1
    linarith

theorem trunc_clamp_close (p : Nat) (q : ℚ) (h0 : 0 < q) (hp : q < pow2z (p : Int)) :
    1 ≤ (if bigFloatTruncInt (roundNE p q) ≤ 0 then 1 else bigFloatTruncInt (roundNE p q)) ∧
    |(((if bigFloatTruncInt (roundNE p q) ≤ 0 then 1
        else bigFloatTruncInt (roundNE p q)) : Int) : ℚ) - q| ≤ 1 := by
  obtain ⟨hl, hu⟩ := roundNE_bounds p q h0 hp
  set r := roundNE p q with hr
  have hfq0 : 0 ≤ ⌊q⌋ := Int.floor_nonneg.mpr (le_of_lt h0)
  have hr0 : 0 ≤ r := le_trans (by exact_mod_cast hfq0) hl
  have htr : bigFloatTruncInt r = ⌊r⌋ := by
    unfold bigFloatTruncInt
    rw [if_neg (not_lt.mpr hr0)]
    exact ratFloor_eq_floor r
  have ht_low : ⌊q⌋ ≤ ⌊r⌋ := Int.le_floor.mpr hl
  have ht_up : ((⌊r⌋ : Int) : ℚ) ≤ q + 1 / 2 := le_trans (Int.floor_le r) hu
  have hq_floor : q - 1 < ((⌊q⌋ : Int) : ℚ) := by
    have h5 := Int.lt_floor_add_one q
    linarith
  have hcast_le : ((⌊q⌋ : Int) : ℚ) ≤ ((⌊r⌋ : Int) : ℚ) := by exact_mod_cast ht_low
  rw [htr]
  by_cases hcl : ⌊r⌋ ≤ 0
  · rw [if_pos hcl]
    have hfq_le : ((⌊q⌋ : Int) : ℚ) ≤ 0 := by
      exact_mod_cast le_trans ht_low hcl
    have hqlt1 : q < 1 := by linarith
    refine ⟨le_rfl, ?_⟩
    rw [abs_le]
    constructor
    · push_cast
      linarith
    · push_cast
      linarith
  · rw [if_neg hcl]
    refine ⟨by omega, ?_⟩
    rw [abs_le]
    constructor
    · linarith
    · linarith

theorem nearestEvenInt_ge_sub_half (x : ℚ) : x - 1 / 2 ≤ ((nearestEvenInt x : Int) : ℚ) := by
  have hfl := Int.floor_le x
  have hfu := Int.lt_floor_add_one x
  simp only [nearestEvenInt, ratFloor_eq_floor, Rat.mkRat_one]
  split
  next h1 =>
    linarith
  next h1 =>
    split
    next h2 =>
      push_cast
      linarith
    next h2 =>
      split
      next =>
        linarith [not_lt.mp h2]
      next =>
        push_cast
        linarith

/-! ## CalculateOrderAmounts -/

theorem pow2z_natCast (n : Nat) : pow2z ((n : Nat) : Int) = (2 : ℚ) ^ n := by
  rw [pow2z_eq, zpow_natCast]

theorem int_lt_pow2z_goBitLen (z : Int) (hz : 0 ≤ z) :
    ((z : Int) : ℚ) < pow2z ((goBitLen z : Nat) : Int) := by
  have h1 : z.natAbs < 2 ^ bitLen z.natAbs := lt_two_pow_bitLen z.natAbs
  have h2 : ((z : Int) : ℚ) = ((z.natAbs : Nat) : ℚ) := by
    rw [Int.cast_natAbs, Int.cast_abs,
      abs_of_nonneg (show (0 : ℚ) ≤ ((z : Int) : ℚ) by exact_mod_cast hz)]
  rw [h2, pow2z_natCast]
  unfold goBitLen
  exact_mod_cast h1

theorem CalculateOrderAmounts_buy_eq (price : ℚ) (maker : Int)
    (d : Int) (h1 : float64_0_001 < price) (h2 : price < float64_0_999) :
    CalculateOrderAmounts price maker OrderSide.buy d =
      .ok ((if roundToSignificantDigits maker 4 ≤ 0 then 1
            else roundToSignificantDigits maker 4),
        (if bigFloatTruncInt (roundNE (max (goBitLen (roundToSignificantDigits maker 4)) 64)
              (mkRat (roundToSignificantDigits maker 4) 1 / price)) ≤ 0
          then 1
          else bigFloatTruncInt (roundNE (max (goBitLen (roundToSignificantDigits maker 4)) 64)
              (mkRat (roundToSignificantDigits maker 4) 1 / price)))) := by
  unfold CalculateOrderAmounts
  rw [if_neg (by push_neg; exact ⟨h1, h2⟩)]

theorem CalculateOrderAmounts_sell_eq (price : ℚ) (maker : Int)
    (d : Int) (h1 : float64_0_001 < price) (h2 : price < float64_0_999) :
    CalculateOrderAmounts price maker OrderSide.sell d =
      .ok ((if roundToSignificantDigits maker 4 ≤ 0 then 1
            else roundToSignificantDigits maker 4),
        (if bigFloatTruncInt (roundNE (max (goBitLen (roundToSignificantDigits maker 4)) 64)
              (mkRat (roundToSignificantDigits maker 4) 1 * price)) ≤ 0
          then 1
          else bigFloatTruncInt (roundNE (max (goBitLen (roundToSignificantDigits maker 4)) 64)
              (mkRat (roundToSignificantDigits maker 4) 1 * price)))) := by
  unfold CalculateOrderAmounts
  rw [if_neg (by push_neg; exact ⟨h1, h2⟩)]

theorem clamp_one_le (c : Int) : 1 ≤ (if c ≤ 0 then 1 else c) := by
  split
  · exact le_rfl
  · omega

/-- C3 (amended): with a valid price and a positive maker amount, every call
of CalculateOrderAmounts returns the 4-significant-digit rounding of the
maker amount as the maker leg and both legs are at least 1; the Sell taker
amount is within 1 of makerAmount*price, and the Buy taker amount is within
1 of makerAmount/price whenever the recalculated maker amount is below 2^54.
(For larger Buy-side maker amounts the 64-bit-float path deviates by more
than one unit, and for non-positive maker amounts the maker leg is clamped
to 1; see the counterexample.) -/
theorem c3_order_amounts (price : ℚ) (maker decimals : Int)
    (h1 : float64_0_001 < price) (h2 : price < float64_0_999) (h3 : 0 < maker) :
    1 ≤ roundToSignificantDigits maker 4 ∧
    (∃ t : Int, CalculateOrderAmounts price maker OrderSide.sell decimals =
        .ok (roundToSignificantDigits maker 4, t) ∧ 1 ≤ t ∧
        |(t : ℚ) - ((roundToSignificantDigits maker 4 : Int) : ℚ) * price| ≤ 1) ∧
    (∃ t : Int, CalculateOrderAmounts price maker OrderSide.buy decimals =
        .ok (roundToSignificantDigits maker 4, t) ∧ 1 ≤ t ∧
        (roundToSignificantDigits maker 4 < 2 ^ 54 →
          |(t : ℚ) - ((roundToSignificantDigits maker 4 : Int) : ℚ) / price| ≤ 1)) := by
  have hm4 : 0 < roundToSignificantDigits maker 4 :=
    roundToSignificantDigits_pos maker 4 h3 (by norm_num)
  have hm4q : (0 : ℚ) < ((roundToSignificantDigits maker 4 : Int) : ℚ) := by
    exact_mod_cast hm4
  have hd001 : (0 : ℚ) < float64_0_001 := by decide
  have hd999 : float64_0_999 < 1 := by decide
  have hpp : 0 < price := lt_trans hd001 h1
  have hp1 : price < 1 := lt_trans h2 hd999
  refine ⟨by omega, ?_, ?_⟩
  · have hq0 : 0 < mkRat (roundToSignificantDigits maker 4) 1 * price := by
      rw [Rat.mkRat_one]
      exact mul_pos hm4q hpp
    have hlt1 : mkRat (roundToSignificantDigits maker 4) 1 * price <
        ((roundToSignificantDigits maker 4 : Int) : ℚ) := by
      rw [Rat.mkRat_one]
      exact mul_lt_of_lt_one_right hm4q hp1
    have hlt2 : ((roundToSignificantDigits maker 4 : Int) : ℚ) <
        pow2z ((goBitLen (roundToSignificantDigits maker 4) : Nat) : Int) :=
      int_lt_pow2z_goBitLen _ (le_of_lt hm4)
    have hqp : mkRat (roundToSignificantDigits maker 4) 1 * price <
        pow2z ((max (goBitLen (roundToSignificantDigits maker 4)) 64 : Nat) : Int) := by
      refine lt_of_lt_of_le (lt_trans hlt1 hlt2) (pow2z_le_pow2z ?_)
      exact_mod_cast Nat.le_max_left _ 64
    obtain ⟨hcl1, hcl2⟩ := trunc_clamp_close
      (max (goBitLen (roundToSignificantDigits maker 4)) 64)
      (mkRat (roundToSignificantDigits maker 4) 1 * price) hq0 hqp
    refine ⟨_, ?_, hcl1, ?_⟩
    · rw [CalculateOrderAmounts_sell_eq price maker decimals h1 h2,
        if_neg (not_le.mpr hm4)]
    · rw [show ((roundToSignificantDigits maker 4 : Int) : ℚ) * price =
        mkRat (roundToSignificantDigits maker 4) 1 * price by rw [Rat.mkRat_one]]
      exact hcl2
  · have hok : CalculateOrderAmounts price maker OrderSide.buy decimals =
        .ok (roundToSignificantDigits maker 4,
          if bigFloatTruncInt (roundNE (max (goBitLen (roundToSignificantDigits maker 4)) 64)
              (mkRat (roundToSignificantDigits maker 4) 1 / price)) ≤ 0
            then 1
            else bigFloatTruncInt (roundNE (max (goBitLen (roundToSignificantDigits maker 4)) 64)
              (mkRat (roundToSignificantDigits maker 4) 1 / price))) := by
      rw [CalculateOrderAmounts_buy_eq price maker decimals h1 h2,
        if_neg (not_le.mpr hm4)]
    refine ⟨_, hok, clamp_one_le _, ?_⟩
    intro hsmall
    have hq0 : 0 < mkRat (roundToSignificantDigits maker 4) 1 / price := by
      rw [Rat.mkRat_one]
      exact div_pos hm4q hpp
    have hstep : ((roundToSignificantDigits maker 4 : Int) : ℚ) < (2 : ℚ) ^ 64 * price := by
      have hc1 : ((roundToSignificantDigits maker 4 : Int) : ℚ) < ((2 : ℚ)) ^ 54 := by
        exact_mod_cast hsmall
      have hc2 : ((2 : ℚ)) ^ 54 ≤ (2 : ℚ) ^ 64 * float64_0_001 := by decide
      have hc3 : (2 : ℚ) ^ 64 * float64_0_001 < (2 : ℚ) ^ 64 * price :=
        mul_lt_mul_of_pos_left h1 (by positivity)
      linarith
    have hqlt : mkRat (roundToSignificantDigits maker 4) 1 / price < (2 : ℚ) ^ 64 := by
      rw [Rat.mkRat_one, div_lt_iff₀ hpp]
      linarith [hstep]
    have hqp : mkRat (roundToSignificantDigits maker 4) 1 / price <
        pow2z ((max (goBitLen (roundToSignificantDigits maker 4)) 64 : Nat) : Int) := by
      refine lt_of_lt_of_le hqlt ?_
      rw [show (2 : ℚ) ^ 64 = pow2z ((64 : Nat) : Int) from (pow2z_natCast 64).symm]
      exact pow2z_le_pow2z (by exact_mod_cast Nat.le_max_right (goBitLen (roundToSignificantDigits maker 4)) 64)
    obtain ⟨hcl1, hcl2⟩ := trunc_clamp_close
      (max (goBitLen (roundToSignificantDigits maker 4)) 64)
      (mkRat (roundToSignificantDigits maker 4) 1 / price) hq0 hqp
    rw [show ((roundToSignificantDigits maker 4 : Int) : ℚ) / price =
      mkRat (roundToSignificantDigits maker 4) 1 / price by rw [Rat.mkRat_one]]
    exact hcl2

/-- Witness for C3 at price 1/2 (a valid float64 price), maker amount 12345,
decimals 6. -/
theorem c3_witness :
    1 ≤ roundToSignificantDigits 12345 4 ∧
    (∃ t : Int, CalculateOrderAmounts (1 / 2) 12345 OrderSide.sell 6 =
        .ok (roundToSignificantDigits 12345 4, t) ∧ 1 ≤ t ∧
        |(t : ℚ) - ((roundToSignificantDigits 12345 4 : Int) : ℚ) * (1 / 2)| ≤ 1) ∧
    (∃ t : Int, CalculateOrderAmounts (1 / 2) 12345 OrderSide.buy 6 =
        .ok (roundToSignificantDigits 12345 4, t) ∧ 1 ≤ t ∧
        (roundToSignificantDigits 12345 4 < 2 ^ 54 →
          |(t : ℚ) - ((roundToSignificantDigits 12345 4 : Int) : ℚ) / (1 / 2)| ≤ 1)) :=
  c3_order_amounts (1 / 2) 12345 6 (by decide) (by decide) (by decide)

/-- C3 counterexample: at the float64 price 0.0011 with the positive maker
amount 9999 * 10^70 (already rounded to 4 significant digits), the Buy-side
taker amount computed through the big.Float path differs from
makerAmount/price by far more than one unit; and at maker amount 0 the
returned maker leg is the clamp value 1, not roundToSignificantDigits(0,4) = 0. -/
theorem c3_counterexample :
    (CalculateOrderAmounts float64_0_0011 (9999 * 10 ^ 70) OrderSide.buy 6 =
        .ok (9999 * 10 ^ 70,
          90899999999999994523982633170595403983709388326230514774657652171286953299968) ∧
      1 < |((90899999999999994523982633170595403983709388326230514774657652171286953299968 : Int) : ℚ) -
          ((9999 * 10 ^ 70 : Int) : ℚ) / float64_0_0011|) ∧
    (CalculateOrderAmounts (1 / 2) 0 OrderSide.buy 6 = .ok (1, 1) ∧
      (1 : Int) ≠ roundToSignificantDigits 0 4) := by
  exact ⟨⟨by decide, by decide⟩, by decide, by decide⟩

/-- C6: CalculateOrderAmounts rejects with the invalid-price error exactly
when the float64 price is outside the open interval between the float64
values of 0.001 and 0.999; in particular the prices exactly 0.001 and 0.999
are rejected while 0.0011 and 0.9989 are accepted. -/
theorem c6_price_range :
    (∀ (price : ℚ) (maker : Int) (side : OrderSide) (d : Int),
        CalculateOrderAmounts price maker side d = .error .invalidPrice ↔
          price ≤ float64_0_001 ∨ float64_0_999 ≤ price) ∧
    CalculateOrderAmounts float64_0_001 5 OrderSide.buy 0 = .error .invalidPrice ∧
    CalculateOrderAmounts float64_0_999 5 OrderSide.buy 0 = .error .invalidPrice ∧
    CalculateOrderAmounts float64_0_0011 100 OrderSide.buy 0 = .ok (100, 90909) ∧
    CalculateOrderAmounts float64_0_9989 100 OrderSide.sell 0 = .ok (100, 99) := by
  refine ⟨?_, by decide, by decide, by decide, by decide⟩
  intro price maker side d
  constructor
  · intro h
    by_contra hc
    push_neg at hc
    cases side with
    | buy =>
      rw [CalculateOrderAmounts_buy_eq price maker d hc.1 hc.2] at h
      exact Except.noConfusion h
    | sell =>
      rw [CalculateOrderAmounts_sell_eq price maker d hc.1 hc.2] at h
      exact Except.noConfusion h
  · intro h
    unfold CalculateOrderAmounts
    rw [if_pos h]

/-! ## SafeAmountToWei -/

theorem digitsVal_lt (ds : List Nat) (h : ∀ d ∈ ds, d ≤ 9) :
    digitsVal ds < 10 ^ ds.length := by
  induction ds with
  | nil => simp [digitsVal]
  | cons d t ih =>
    have hd : d ≤ 9 := h d (by simp)
    have ht : digitsVal t < 10 ^ t.length := ih (fun x hx => h x (by simp [hx]))
    calc digitsVal (d :: t) = d * 10 ^ t.length + digitsVal t := rfl
      _ < d * 10 ^ t.length + 10 ^ t.length := by omega
      _ = (d + 1) * 10 ^ t.length := by ring
      _ ≤ 10 * 10 ^ t.length := Nat.mul_le_mul_right _ (by omega)
      _ = 10 ^ (d :: t).length := by
          rw [List.length_cons, pow_succ]
          ring

theorem fracVal_nonneg (ds : List Nat) : 0 ≤ fracVal ds := by
  induction ds with
  | nil => simp [fracVal]
  | cons d t ih =>
    show 0 ≤ ((d : ℚ) + fracVal t) / 10
    positivity

theorem fracVal_lt_one (ds : List Nat) (h : ∀ d ∈ ds, d ≤ 9) : fracVal ds < 1 := by
  induction ds with
  | nil => norm_num [fracVal]
  | cons d t ih =>
    have hd : (d : ℚ) ≤ 9 := by exact_mod_cast h d (by simp)
    have ht : fracVal t < 1 := ih (fun x hx => h x (by simp [hx]))
    show ((d : ℚ) + fracVal t) / 10 < 1
    rw [div_lt_one (by norm_num)]
    linarith

theorem fracVal_mul_pow (ds : List Nat) :
    fracVal ds * 10 ^ ds.length = (digitsVal ds : ℚ) := by
  induction ds with
  | nil => simp [fracVal, digitsVal]
  | cons d t ih =>
    show ((d : ℚ) + fracVal t) / 10 * 10 ^ (t.length + 1) = (digitsVal (d :: t) : ℚ)
    have hexp : (10 : ℚ) ^ (t.length + 1) = 10 ^ t.length * 10 := by ring
    rw [hexp]
    have hstep : ((d : ℚ) + fracVal t) / 10 * (10 ^ t.length * 10) =
        (d : ℚ) * 10 ^ t.length + fracVal t * 10 ^ t.length := by
      field_simp
      ring
    rw [hstep, ih]
    show (d : ℚ) * 10 ^ t.length + (digitsVal t : ℚ) =
      ((d * 10 ^ t.length + digitsVal t : Nat) : ℚ)
    push_cast
    ring

theorem fracVal_append (a b : List Nat) :
    fracVal (a ++ b) = fracVal a + fracVal b / 10 ^ a.length := by
  induction a with
  | nil => simp [fracVal]
  | cons d t ih =>
    show ((d : ℚ) + fracVal (t ++ b)) / 10 =
      ((d : ℚ) + fracVal t) / 10 + fracVal b / 10 ^ (t.length + 1)
    rw [ih]
    have hexp : (10 : ℚ) ^ (t.length + 1) = 10 ^ t.length * 10 := by ring
    rw [hexp]
    field_simp
    ring

theorem digitsVal_append (a b : List Nat) :
    digitsVal (a ++ b) = digitsVal a * 10 ^ b.length + digitsVal b := by
  induction a with
  | nil => simp [digitsVal]
  | cons d t ih =>
    show d * 10 ^ (t ++ b).length + digitsVal (t ++ b) =
      (d * 10 ^ t.length + digitsVal t) * 10 ^ b.length + digitsVal b
    rw [ih, List.length_append, pow_add]
    ring

theorem digitsVal_replicate_zero (k : Nat) :
    digitsVal (List.replicate k 0) = 0 := by
  induction k with
  | zero => rfl
  | succ n ih =>
    show 0 * 10 ^ (List.replicate n (0 : Nat)).length + digitsVal (List.replicate n 0) = 0
    rw [ih]
    simp

theorem digitsVal_padTrunc_q (fd : List Nat) (k : Nat) :
    (digitsVal (goPadTrunc fd k) : ℚ) = fracVal (fd.take k) * 10 ^ k := by
  unfold goPadTrunc
  split
  next hlen =>
    have hlt : (fd.take k).length = k := by
      rw [List.length_take]
      omega
    rw [show (10 : ℚ) ^ k = 10 ^ (fd.take k).length by rw [hlt], fracVal_mul_pow]
  next hlen =>
    have hlen' : fd.length ≤ k := by omega
    rw [List.take_of_length_le hlen', digitsVal_append, digitsVal_replicate_zero,
      List.length_replicate]
    have hk : k = fd.length + (k - fd.length) := by omega
    conv_rhs => rw [hk]
    rw [pow_add, ← mul_assoc, fracVal_mul_pow]
    push_cast
    ring

theorem padTrunc_floor (fd : List Nat) (k : Nat) (hdig : ∀ d ∈ fd, d ≤ 9) :
    ⌊fracVal fd * 10 ^ k⌋ = (digitsVal (goPadTrunc fd k) : Int) := by
  unfold goPadTrunc
  split
  next hlen =>
    have hlt : (fd.take k).length = k := by
      rw [List.length_take]
      omega
    have happ : fracVal fd = fracVal (fd.take k) + fracVal (fd.drop k) / 10 ^ k := by
      conv_lhs => rw [← List.take_append_drop k fd]
      rw [fracVal_append, hlt]
    have hmul : fracVal fd * 10 ^ k =
        ((digitsVal (fd.take k) : Int) : ℚ) + fracVal (fd.drop k) := by
      rw [happ, add_mul, div_mul_cancel₀ _ (show (10 : ℚ) ^ k ≠ 0 by positivity),
        show (10 : ℚ) ^ k = 10 ^ (fd.take k).length by rw [hlt], fracVal_mul_pow]
      push_cast
      ring
    rw [hmul, Int.floor_int_add]
    have hd0 : 0 ≤ fracVal (fd.drop k) := fracVal_nonneg _
    have hd1 : fracVal (fd.drop k) < 1 :=
      fracVal_lt_one _ (fun d hd => hdig d (List.drop_subset k fd hd))
    rw [Int.floor_eq_zero_iff.mpr ⟨hd0, hd1⟩, add_zero]
  next hlen =>
    have hlen' : fd.length ≤ k := by omega
    rw [digitsVal_append, digitsVal_replicate_zero, List.length_replicate]
    have hk : k = fd.length + (k - fd.length) := by omega
    have hval : fracVal fd * 10 ^ k =
        ((digitsVal fd * 10 ^ (k - fd.length) : Nat) : ℚ) := by
      conv_lhs => rw [hk]
      rw [pow_add, ← mul_assoc, fracVal_mul_pow]
      push_cast
      ring
    rw [hval, Int.floor_natCast]
    push_cast
    ring

theorem result_eq_floor (a : DecimalAmount) (k : Nat)
    (hdig : ∀ d ∈ a.fd, d ≤ 9) (hpos : 0 < a.value) :
    (a.ip : Int) * 10 ^ k + (digitsVal (goPadTrunc a.fd k) : Int) =
      ⌊a.value * 10 ^ k⌋ := by
  have hfn : 0 ≤ fracVal a.fd := fracVal_nonneg a.fd
  have hip : (0 : ℚ) ≤ (a.ip : ℚ) := by positivity
  have hneg : a.neg = false := by
    cases hn : a.neg
    · rfl
    · exfalso
      unfold DecimalAmount.value at hpos
      rw [hn] at hpos
      simp only [if_pos] at hpos
      nlinarith
  have hv : a.value = (a.ip : ℚ) + fracVal a.fd := by
    unfold DecimalAmount.value
    rw [hneg]
    ring_nf
    simp
  rw [hv, add_mul]
  have hcast : ((a.ip : ℚ)) * 10 ^ k = (((a.ip * 10 ^ k : Nat) : Int) : ℚ) := by
    push_cast
    ring
  rw [hcast, Int.floor_int_add, padTrunc_floor a.fd k hdig]
  push_cast
  ring

/-- C4: whenever SafeAmountToWei succeeds on a rendered decimal amount, the
returned integer is the base-10 reading of the integer-part digits followed
by the fractional digits truncated or zero-padded to exactly `decimals`
digits, equals floor(amount * 10^decimals), lies in [1, 2^256 - 1], and
dividing it back by 10^decimals reproduces the input truncated (not rounded)
at `decimals` fractional digits. -/
theorem c4_safe_amount_to_wei (a : DecimalAmount) (decimals : Int) (r : Int)
    (hdig : ∀ d ∈ a.fd, d ≤ 9)
    (h : SafeAmountToWei a decimals = .ok r) :
    r = (a.ip : Int) * 10 ^ decimals.toNat +
        (digitsVal (goPadTrunc a.fd decimals.toNat) : Int) ∧
    r = ⌊a.value * 10 ^ decimals.toNat⌋ ∧
    1 ≤ r ∧ r < 2 ^ 256 ∧
    (r : ℚ) / 10 ^ decimals.toNat = (a.ip : ℚ) + fracVal (a.fd.take decimals.toNat) := by
  simp only [SafeAmountToWei] at h
  split at h
  · exact Except.noConfusion h
  next h0 =>
  split at h
  · exact Except.noConfusion h
  next h1 =>
  split at h
  · exact Except.noConfusion h
  next h2 =>
  split at h
  · exact Except.noConfusion h
  next h3 =>
  have hr : (a.ip : Int) * 10 ^ decimals.toNat +
      (digitsVal (goPadTrunc a.fd decimals.toNat) : Int) = r := by
    exact Except.ok.inj h
  have hpos : 0 < a.value := lt_of_not_le h0
  refine ⟨hr.symm, ?_, by omega, by omega, ?_⟩
  · rw [← hr]
    exact result_eq_floor a decimals.toNat hdig hpos
  · rw [← hr]
    rw [div_eq_iff (show (10 : ℚ) ^ decimals.toNat ≠ 0 by positivity)]
    push_cast
    rw [digitsVal_padTrunc_q]
    ring

/-- Witness for C4 at the rendered decimal 1.5 with decimals = 2. -/
theorem c4_witness :
    (150 : Int) = ((1 : Nat) : Int) * 10 ^ (2 : Int).toNat +
        (digitsVal (goPadTrunc [5] (2 : Int).toNat) : Int) ∧
    (150 : Int) = ⌊(⟨false, 1, [5]⟩ : DecimalAmount).value * 10 ^ (2 : Int).toNat⌋ ∧
    (1 : Int) ≤ 150 ∧ (150 : Int) < 2 ^ 256 ∧
    ((150 : Int) : ℚ) / 10 ^ (2 : Int).toNat =
      ((1 : Nat) : ℚ) + fracVal ([5].take (2 : Int).toNat) :=
  c4_safe_amount_to_wei ⟨false, 1, [5]⟩ 2 150 (by decide) (by decide)

/-- C5: SafeAmountToWei fails exactly when the amount is non-positive, the
decimals argument is outside [0, 18], the computed integer
floor(amount * 10^decimals) reaches 2^256, or that computed integer is zero
(it cannot be negative for a positive amount).  The rendered decimal string
of a float64 always has a valid shape, so the Go branches for a malformed
string are unreachable and have no counterpart in the model. -/
theorem c5_safe_amount_errors (a : DecimalAmount) (decimals : Int)
    (hdig : ∀ d ∈ a.fd, d ≤ 9) :
    exceptIsOk (SafeAmountToWei a decimals) = false ↔
      (a.value ≤ 0 ∨ decimals < 0 ∨ MaxDecimals < decimals ∨
        2 ^ 256 ≤ ⌊a.value * 10 ^ decimals.toNat⌋ ∨
        ⌊a.value * 10 ^ decimals.toNat⌋ ≤ 0) := by
  simp only [SafeAmountToWei]
  by_cases h0 : a.value ≤ 0
  · rw [if_pos h0]
    exact ⟨fun _ => Or.inl h0, fun _ => rfl⟩
  · rw [if_neg h0]
    by_cases h1 : decimals < 0 ∨ MaxDecimals < decimals
    · rw [if_pos h1]
      refine ⟨fun _ => ?_, fun _ => rfl⟩
      rcases h1 with h | h
      exacts [Or.inr (Or.inl h), Or.inr (Or.inr (Or.inl h))]
    · rw [if_neg h1]
      have hfloor : (a.ip : Int) * 10 ^ decimals.toNat +
          (digitsVal (goPadTrunc a.fd decimals.toNat) : Int) =
          ⌊a.value * 10 ^ decimals.toNat⌋ :=
        result_eq_floor a decimals.toNat hdig (lt_of_not_le h0)
      by_cases h2 : (2 : Int) ^ 256 ≤ (a.ip : Int) * 10 ^ decimals.toNat +
          (digitsVal (goPadTrunc a.fd decimals.toNat) : Int)
      · rw [if_pos h2]
        refine ⟨fun _ => ?_, fun _ => rfl⟩
        rw [← hfloor]
        exact Or.inr (Or.inr (Or.inr (Or.inl h2)))
      · rw [if_neg h2]
        by_cases h3 : (a.ip : Int) * 10 ^ decimals.toNat +
            (digitsVal (goPadTrunc a.fd decimals.toNat) : Int) ≤ 0
        · rw [if_pos h3]
          refine ⟨fun _ => ?_, fun _ => rfl⟩
          rw [← hfloor]
          exact Or.inr (Or.inr (Or.inr (Or.inr h3)))
        · rw [if_neg h3]
          constructor
          · intro hcontra
            exact Bool.noConfusion hcontra
          · intro hdisj
            exfalso
            rw [← hfloor] at hdisj
            rcases hdisj with h | h | h | h | h
            exacts [h0 h, h1 (Or.inl h), h1 (Or.inr h), h2 h, h3 h]

/-- Witness for C5 at the rendered decimal 0.5 with decimals = 0: the
computed integer truncates to 0, so the call fails. -/
theorem c5_witness :
    exceptIsOk (SafeAmountToWei ⟨false, 0, [5]⟩ 0) = false :=
  (c5_safe_amount_errors ⟨false, 0, [5]⟩ 0 (by decide)).mpr
    (Or.inr (Or.inr (Or.inr (Or.inr (by
      rw [← ratFloor_eq_floor]
      decide)))))

/-! ## EIP-712 hashing and signing -/

theorem beBytes_zero (n : Nat) : beBytes n 0 = List.replicate n 0 := by
  induction n with
  | zero => rfl
  | succ m ih =>
    show beBytes m (0 / 256) ++ [0 % 256] = List.replicate (m + 1) 0
    rw [Nat.zero_div, ih, List.replicate_succ']

theorem beBytes_add (m n : Nat) :
    ∀ v : Nat, beBytes (m + n) v = beBytes m (v / 256 ^ n) ++ beBytes n (v % 256 ^ n) := by
  induction n with
  | zero =>
    intro v
    simp [beBytes]
  | succ n ih =>
    intro v
    show beBytes (m + n) (v / 256) ++ [v % 256] = _
    rw [ih (v / 256)]
    have h1 : v / 256 / 256 ^ n = v / 256 ^ (n + 1) := by
      rw [Nat.div_div_eq_div_mul, pow_succ']
    have h2 : v / 256 % 256 ^ n = v % 256 ^ (n + 1) / 256 := by
      rw [pow_succ', Nat.mod_mul_right_div_self]
    have h3 : v % 256 ^ (n + 1) % 256 = v % 256 := by
      apply Nat.mod_mod_of_dvd
      exact dvd_pow_self 256 (by omega)
    rw [h1, h2, ← h3, List.append_assoc]
    rfl

theorem beBytes32_address (x : Nat) :
    beBytes 32 (x % 2 ^ 160) = List.replicate 12 0 ++ beBytes 20 (x % 2 ^ 160) := by
  have h160 : (2 : Nat) ^ 160 = 256 ^ 20 := by norm_num
  have hx : x % 2 ^ 160 < 256 ^ 20 := by
    rw [← h160]
    exact Nat.mod_lt _ (by positivity)
  have h32 : beBytes 32 (x % 2 ^ 160) = beBytes (12 + 20) (x % 2 ^ 160) := rfl
  rw [h32, beBytes_add, Nat.div_eq_of_lt hx, Nat.mod_eq_of_lt hx, beBytes_zero]

/-- C1: the domain-separator hash is keccak256 of the domain type hash
followed by the hashed name, the hashed version, the chain id and the
verifying contract, each ABI-encoded into one 32-byte slot with the address
left-padded by 12 zero bytes; the struct hash is keccak256 of the order type
hash followed by the twelve order fields, each in one 32-byte slot, in the
declared order; and the two type-hash strings match the specified strings
character for character. -/
theorem c1_typed_data_hashing :
    eip712DomainTypeString =
      "EIP712Domain(string name,string version,uint256 chainId,address verifyingContract)" ∧
    orderTypeString =
      "Order(uint256 salt,address maker,address signer,address taker,uint256 tokenId,uint256 makerAmount,uint256 takerAmount,uint256 expiration,uint256 nonce,uint256 feeRateBps,uint8 side,uint8 signatureType)" ∧
    (∀ (keccak : List Nat → List Nat) (d : EIP712Domain),
      d.hash keccak =
        keccak (EIP712DomainTypeHash keccak ++ keccak d.Name ++ keccak d.Version ++
          beBytes 32 (Int.emod d.ChainID (2 ^ 256)).toNat ++
          (List.replicate 12 0 ++ beBytes 20 (d.VerifyingContract % 2 ^ 160)))) ∧
    (∀ (keccak : List Nat → List Nat) (o : OrderTypedData),
      o.hash keccak =
        keccak (OrderTypeHash keccak ++
          beBytes 32 (Int.emod o.Salt (2 ^ 256)).toNat ++
          (List.replicate 12 0 ++ beBytes 20 (o.Maker % 2 ^ 160)) ++
          (List.replicate 12 0 ++ beBytes 20 (o.Signer % 2 ^ 160)) ++
          (List.replicate 12 0 ++ beBytes 20 (o.Taker % 2 ^ 160)) ++
          beBytes 32 (Int.emod o.TokenID (2 ^ 256)).toNat ++
          beBytes 32 (Int.emod o.MakerAmount (2 ^ 256)).toNat ++
          beBytes 32 (Int.emod o.TakerAmount (2 ^ 256)).toNat ++
          beBytes 32 (Int.emod o.Expiration (2 ^ 256)).toNat ++
          beBytes 32 (Int.emod o.Nonce (2 ^ 256)).toNat ++
          beBytes 32 (Int.emod o.FeeRateBps (2 ^ 256)).toNat ++
          beBytes 32 (o.Side % 2 ^ 8) ++
          beBytes 32 (o.SignatureType % 2 ^ 8))) := by
  refine ⟨rfl, rfl, ?_, ?_⟩
  · intro keccak d
    unfold EIP712Domain.hash
    simp only [abiPack, List.foldr, abiEncodeWord, beBytes32_address,
      List.append_assoc, List.append_nil]
  · intro keccak o
    unfold OrderTypedData.hash
    congr 1
    simp only [abiPack, List.foldr, abiEncodeWord, beBytes32_address,
      List.append_assoc, List.append_nil]

theorem hexChars_length (bs : List Nat) : (hexChars bs).length = 2 * bs.length := by
  induction bs with
  | nil => rfl
  | cons b t ih =>
    show (hexChars t).length + 1 + 1 = 2 * (t.length + 1)
    omega

theorem list_set_last (l : List Nat) (v : Nat) (h : l.length = 65) :
    l.set 64 v = l.take 64 ++ [v] := by
  rw [List.set_eq_take_append_cons_drop, if_pos (by omega),
    List.drop_eq_nil_of_le (by omega)]

/-- C2: SignOrder signs exactly the EIP-712 sign hash
keccak256(0x19 0x01 domainSeparator structHash) of the converted order, and
returns 0x followed by the lowercase hex rendering of r‖s‖v where the first
64 bytes are the raw curve signature's r and s and v is the raw recovery id
(0 or 1) plus 27; the rendered string has 2 + 130 = 132 characters. -/
theorem c2_sign_order (keccak ecdsaSign : List Nat → List Nat) (chainID : Int)
    (exchangeAddr : Nat) (order : Order) (typedData : OrderTypedData)
    (hok : OrderToTypedData order = .ok typedData)
    (hlen : (ecdsaSign (CreateOrderSignHash keccak (NewEIP712Domain chainID exchangeAddr)
      typedData)).length = 65)
    (hrec : (ecdsaSign (CreateOrderSignHash keccak (NewEIP712Domain chainID exchangeAddr)
      typedData)).getD 64 0 < 2) :
    SignOrder keccak ecdsaSign chainID exchangeAddr order =
      .ok (("0x") ++ hexOfBytes
        ((ecdsaSign (CreateOrderSignHash keccak (NewEIP712Domain chainID exchangeAddr)
            typedData)).take 64 ++
          [(ecdsaSign (CreateOrderSignHash keccak (NewEIP712Domain chainID exchangeAddr)
            typedData)).getD 64 0 + 27])) ∧
    (("0x") ++ hexOfBytes
        ((ecdsaSign (CreateOrderSignHash keccak (NewEIP712Domain chainID exchangeAddr)
            typedData)).take 64 ++
          [(ecdsaSign (CreateOrderSignHash keccak (NewEIP712Domain chainID exchangeAddr)
            typedData)).getD 64 0 + 27])).length = 132 ∧
    CreateOrderSignHash keccak (NewEIP712Domain chainID exchangeAddr) typedData =
      keccak ([0x19, 0x01] ++
        EIP712Domain.hash keccak (NewEIP712Domain chainID exchangeAddr) ++
        OrderTypedData.hash keccak typedData) := by
  set sig := ecdsaSign (CreateOrderSignHash keccak (NewEIP712Domain chainID exchangeAddr)
    typedData) with hsig
  have hmod : (sig.getD 64 0 + 27) % 256 = sig.getD 64 0 + 27 :=
    Nat.mod_eq_of_lt (by omega)
  have hset : sig.set 64 ((sig.getD 64 0 + 27) % 256) = sig.take 64 ++ [sig.getD 64 0 + 27] := by
    rw [hmod]
    exact list_set_last sig _ hlen
  refine ⟨?_, ?_, rfl⟩
  · unfold SignOrder
    rw [hok]
    show Except.ok (("0x") ++ hexOfBytes (sig.set 64 ((sig.getD 64 0 + 27) % 256))) = _
    rw [hset]
  · rw [String.length_append]
    show 2 + (hexChars (sig.take 64 ++ [sig.getD 64 0 + 27])).length = 132
    rw [hexChars_length, List.length_append, List.length_take]
    simp [hlen]

/-- Witness for C2 with the concrete stand-ins keccak0 and ecdsaSign0, chain
id 56, exchange address 9, and order0. -/
theorem c2_witness :
    SignOrder keccak0 ecdsaSign0 56 9 order0 =
      .ok (("0x") ++ hexOfBytes
        ((ecdsaSign0 (CreateOrderSignHash keccak0 (NewEIP712Domain 56 9) typed0)).take 64 ++
          [(ecdsaSign0 (CreateOrderSignHash keccak0 (NewEIP712Domain 56 9) typed0)).getD 64 0 + 27])) ∧
    (("0x") ++ hexOfBytes
        ((ecdsaSign0 (CreateOrderSignHash keccak0 (NewEIP712Domain 56 9) typed0)).take 64 ++
          [(ecdsaSign0 (CreateOrderSignHash keccak0 (NewEIP712Domain 56 9) typed0)).getD 64 0 + 27])).length = 132 ∧
    CreateOrderSignHash keccak0 (NewEIP712Domain 56 9) typed0 =
      keccak0 ([0x19, 0x01] ++
        EIP712Domain.hash keccak0 (NewEIP712Domain 56 9) ++
        OrderTypedData.hash keccak0 typed0) :=
  c2_sign_order keccak0 ecdsaSign0 56 9 order0 typed0 (by decide) (by decide) (by decide)

/-- C9: OrderToTypedData succeeds exactly when Salt, TokenID, MakerAmount and
TakerAmount all parse as base-10 integers, and on success a non-parsing
Expiration, Nonce or FeeRateBps silently becomes 0, every Side string other
than "1" maps to 0, and every SignatureType string other than "1" or "2"
maps to 0. -/
theorem c9_order_to_typed_data (o : Order) :
    (exceptIsOk (OrderToTypedData o) =
      ((goParseInt10 o.Salt).isSome && (goParseInt10 o.TokenID).isSome &&
        (goParseInt10 o.MakerAmount).isSome && (goParseInt10 o.TakerAmount).isSome)) ∧
    (∀ salt tokenID makerAmount takerAmount : Int,
      goParseInt10 o.Salt = some salt → goParseInt10 o.TokenID = some tokenID →
      goParseInt10 o.MakerAmount = some makerAmount →
      goParseInt10 o.TakerAmount = some takerAmount →
      OrderToTypedData o = .ok
        { Salt := salt, Maker := hexToAddress o.Maker, Signer := hexToAddress o.Signer,
          Taker := hexToAddress o.Taker, TokenID := tokenID,
          MakerAmount := makerAmount, TakerAmount := takerAmount,
          Expiration := (goParseInt10 o.Expiration).getD 0,
          Nonce := (goParseInt10 o.Nonce).getD 0,
          FeeRateBps := (goParseInt10 o.FeeRateBps).getD 0,
          Side := if o.Side = ("1") then 1 else 0,
          SignatureType := if o.SignatureType = ("1") then 1
            else if o.SignatureType = ("2") then 2 else 0 }) := by
  constructor
  · unfold OrderToTypedData
    cases h1 : goParseInt10 o.Salt <;> cases h2 : goParseInt10 o.TokenID <;>
      cases h3 : goParseInt10 o.MakerAmount <;> cases h4 : goParseInt10 o.TakerAmount <;>
        simp [exceptIsOk]
  · intro salt tokenID makerAmount takerAmount h1 h2 h3 h4
    unfold OrderToTypedData
    rw [h1, h2, h3, h4]

/-- Witness for C9 at order0, whose Expiration is empty, Nonce is malformed,
Side is "1" and SignatureType is "2". -/
theorem c9_witness : OrderToTypedData order0 = .ok typed0 :=
  ((c9_order_to_typed_data order0).2 1 2 3 4
    (by decide) (by decide) (by decide) (by decide)).trans (by decide)

end OpinionSDK
